import Mathlib

/-!
Shallow embedding of `vapi/internal/internal.go` (govmomi): the VAPI REST
path constants, the `Resource` URL builder (`URL`, `WithID`, `WithAction`,
`WithParameter`, `Request`), the deferred-error JSON body encoder
(`encode` / `errorReader`), and the association wire types
(`AssociatedObject`, `Association`, `NewAssociation`).

Strings are modelled as Lean `String`s for URL components and as `List Char`
(one `Char` per byte/rune) for JSON byte streams.  Where the Go code calls
into the standard library (`net/url`, `encoding/json`, `net/http`) the
relevant stdlib behaviour is embedded as well, faithfully to the Go sources:
`url.Values.Encode` / `url.QueryEscape`, `json` marshalling with HTML
escaping (the `json.Encoder` default), and `http.NewRequest`'s method
validation.
-/

namespace VapiInternal

/-! ## VAPI REST path constants (internal.go lines 31-49) -/

def Path : String := "/rest"

def SessionPath : String := "/com/vmware/cis/session"

def CategoryPath : String := "/com/vmware/cis/tagging/category"

def TagPath : String := "/com/vmware/cis/tagging/tag"

def AssociationPath : String := "/com/vmware/cis/tagging/tag-association"

def LibraryPath : String := "/com/vmware/content/library"

def LibraryItemFileData : String := "/com/vmware/cis/data"

def LibraryItemPath : String := "/com/vmware/content/library/item"

def LibraryItemFilePath : String := "/com/vmware/content/library/item/file"

def LibraryItemUpdateSession : String := "/com/vmware/content/library/item/update-session"

def LibraryItemUpdateSessionFile : String := "/com/vmware/content/library/item/updatesession/file"

def LibraryItemDownloadSession : String := "/com/vmware/content/library/item/download-session"

def LibraryItemDownloadSessionFile : String := "/com/vmware/content/library/item/downloadsession/file"

def LocalLibraryPath : String := "/com/vmware/content/local-library"

def SubscribedLibraryPath : String := "/com/vmware/content/subscribed-library"

def VCenterOVFLibraryItem : String := "/com/vmware/vcenter/ovf/library-item"

def SessionCookieName : String := "vmware-api-session-id"

/-! ## net/url embedding

`GoURL` models the fields of Go's `url.URL` that this unit reads or writes:
`Scheme`, `Host`, `Path` and `RawQuery`.  The `CloneURL` capability of the
source (`URL() *url.URL`) hands the builder its own mutable copy, so the
capability is modelled as the `GoURL` value it supplies. -/

structure GoURL where
  scheme : String
  host : String
  path : String
  rawQuery : String
  deriving Repr, DecidableEq

/-- UTF-8 bytes of a character, as Go's `encoding/utf8` produces them. -/
def utf8Bytes (c : Char) : List Nat :=
  let n := c.toNat
  if n < 0x80 then [n]
  else if n < 0x800 then
    [0xC0 + n / 0x40, 0x80 + n % 0x40]
  else if n < 0x10000 then
    [0xE0 + n / 0x1000, 0x80 + n / 0x40 % 0x40, 0x80 + n % 0x40]
  else
    [0xF0 + n / 0x40000, 0x80 + n / 0x1000 % 0x40, 0x80 + n / 0x40 % 0x40, 0x80 + n % 0x40]

/-- Uppercase hex digit, as Go's `net/url` escaping uses (`"0123456789ABCDEF"`). -/
def upperHexDigit (n : Nat) : Char :=
  if n < 10 then Char.ofNat (48 + n) else Char.ofNat (55 + n)

/-- Go `url.shouldEscape(c, encodeQueryComponent)` is false exactly for
alphanumerics and `-  _  .  ~` (space handled separately as `+`). -/
def queryUnreserved (c : Char) : Bool :=
  let n := c.toNat
  decide ((64 < n ∧ n < 91) ∨ (96 < n ∧ n < 123) ∨ (47 < n ∧ n < 58) ∨
    n = 45 ∨ n = 95 ∨ n = 46 ∨ n = 126)

/-- Go `url.QueryEscape`: keep unreserved bytes, turn space into `+`, and
percent-escape every other byte of the UTF-8 encoding with uppercase hex. -/
def queryEscape (s : List Char) : List Char :=
  s.flatMap fun c =>
    if queryUnreserved c then [c]
    else if c = ' ' then ['+']
    else (utf8Bytes c).flatMap fun b => ['%', upperHexDigit (b / 16), upperHexDigit (b % 16)]

/-- String-level wrapper for `queryEscape`. -/
def queryEscapeStr (s : String) : String :=
  String.mk (queryEscape s.data)

/-- Go `url.Values{k: {v}}.Encode()` for a single key/value pair:
`QueryEscape(k) + "=" + QueryEscape(v)` (key sorting is trivial here). -/
def valuesEncode1 (key value : String) : String :=
  queryEscapeStr key ++ "=" ++ queryEscapeStr value

/-! ## Resource builder (internal.go lines 82-118) -/

/-- Resource wraps url.URL with helpers (struct `Resource`). -/
structure Resource where
  u : GoURL
  deriving Repr, DecidableEq

/-- Function `URL(c CloneURL, path string) *Resource`: clone the connection's
URL and overwrite its path with `Path + path`.  Only the path field is
written; every other field of the clone is kept. -/
def URL (c : GoURL) (path : String) : Resource :=
  { u := { c with path := Path ++ path } }

/-- Method `WithID`: `r.u.Path += "/id:" + id`. -/
def Resource.WithID (r : Resource) (id : String) : Resource :=
  { r with u := { r.u with path := r.u.path ++ "/id:" ++ id } }

/-- Method `WithAction`: `r.u.RawQuery = url.Values{"~action": []string{action}}.Encode()`. -/
def Resource.WithAction (r : Resource) (action : String) : Resource :=
  { r with u := { r.u with rawQuery := valuesEncode1 "~action" action } }

/-- Method `WithParameter`: `parameter.Set(name, value); r.u.RawQuery = parameter.Encode()`. -/
def Resource.WithParameter (r : Resource) (name value : String) : Resource :=
  { r with u := { r.u with rawQuery := valuesEncode1 name value } }

/-! ## encoding/json embedding

`Json` is the JSON image of a marshallable Go value (numbers restricted to
integers; floating point is out of scope).  `render` is `json.Marshal` with
the `json.Encoder` default of HTML escaping: object members in struct
declaration order, strings escaped per `encodeState.string`
(`\"  \\  \n  \r  \t`, other control bytes and `< > &` as lowercase
`\u00xx`, U+2028/U+2029 as `\u202x`), integers in decimal. -/

inductive Json where
  | null
  | bool (b : Bool)
  | num (n : Int)
  | str (s : List Char)
  | arr (items : List Json)
  | obj (members : List (List Char × Json))
  deriving Repr

/-- Lowercase hex digit, as Go's `encoding/json` uses (`"0123456789abcdef"`). -/
def lowerHexDigit (n : Nat) : Char :=
  if n < 10 then Char.ofNat (48 + n) else Char.ofNat (87 + n)

/-- Go `encodeState.string` escaping of one character (HTML escaping on). -/
def escapeChar (c : Char) : List Char :=
  if c = '"' then ['\\', '"']
  else if c = '\\' then ['\\', '\\']
  else if c = '\n' then ['\\', 'n']
  else if c = '\r' then ['\\', 'r']
  else if c = '\t' then ['\\', 't']
  else if c.toNat < 0x20 ∨ c = '<' ∨ c = '>' ∨ c = '&' then
    ['\\', 'u', '0', '0', lowerHexDigit (c.toNat / 16), lowerHexDigit (c.toNat % 16)]
  else if c.toNat = 0x2028 ∨ c.toNat = 0x2029 then
    ['\\', 'u', '2', '0', '2', lowerHexDigit (c.toNat % 16)]
  else [c]

def escapeString (s : List Char) : List Char :=
  s.flatMap escapeChar

/-- Decimal digit character. -/
def decDigit (n : Nat) : Char :=
  Char.ofNat (48 + n % 10)

/-- Decimal rendering of a natural number, most significant digit first. -/
def renderNat (n : Nat) : List Char :=
  if _h : n < 10 then [decDigit n]
  else renderNat (n / 10) ++ [decDigit (n % 10)]
  termination_by n
  decreasing_by exact Nat.div_lt_self (by omega) (by omega)

/-- Decimal rendering of an integer (Go `strconv.AppendInt`). -/
def renderInt (i : Int) : List Char :=
  if i < 0 then '-' :: renderNat i.natAbs else renderNat i.natAbs

mutual

/-- Marshalled bytes of a JSON value (Go `json.Marshal` + HTML escaping). -/
def render : Json → List Char
  | .null => 'n' :: 'u' :: 'l' :: ['l']
  | .bool true => 't' :: 'r' :: 'u' :: ['e']
  | .bool false => 'f' :: 'a' :: 'l' :: 's' :: ['e']
  | .num i => renderInt i
  | .str s => '"' :: escapeString s ++ ['"']
  | .arr [] => '[' :: [']']
  | .arr (x :: xs) => '[' :: (render x ++ renderItems xs) ++ [']']
  | .obj [] => '{' :: ['}']
  | .obj (kv :: kvs) => '{' :: (renderMember kv ++ renderMembers kvs) ++ ['}']

def renderItems : List Json → List Char
  | [] => []
  | x :: xs => ',' :: render x ++ renderItems xs

def renderMember : List Char × Json → List Char
  | (k, v) => '"' :: escapeString k ++ '"' :: ':' :: render v

def renderMembers : List (List Char × Json) → List Char
  | [] => []
  | kv :: kvs => ',' :: renderMember kv ++ renderMembers kvs

end

/-! ## Errors, bodies, readers (internal.go lines 134-150) -/

/-- Errors observable in this unit: the two `encoding/json` marshal failure
modes, `io.EOF`, and `net/http`'s invalid-method error. -/
inductive GoError where
  | unsupportedType (typeName : String)
  | unsupportedValue (desc : String)
  | eof
  | invalidMethod (method : String)
  deriving Repr, DecidableEq

/-- Body values handed to `encode` (`interface{}` in Go): either a value
whose JSON marshalling succeeds, represented by its JSON image, or one of
the values `encoding/json` rejects (func/chan/complex types, cyclic or
otherwise unsupported values). -/
inductive Body where
  | val (v : Json)
  | unsupportedType (typeName : String)
  | unsupportedValue (desc : String)
  deriving Repr

/-- Go `json.Marshal` on a `Body`. -/
def marshal : Body → Except GoError (List Char)
  | .val v => .ok (render v)
  | .unsupportedType t => .error (.unsupportedType t)
  | .unsupportedValue d => .error (.unsupportedValue d)

/-- The `io.Reader` values this unit produces: a `bytes.Buffer` holding the
remaining bytes, the source's `errorReader`, or `io.MultiReader()` with no
readers (the default empty body). -/
inductive Reader where
  | buffer (contents : List Char)
  | errorReader (e : GoError)
  | multiReaderEmpty
  deriving Repr, DecidableEq

/-- One `Read(p)` call with `len(p) = cap`: returns the Go `(n, err)` pair
and the reader's next state.  `errorReader.Read` is `return -1, e.e`;
`bytes.Buffer.Read` drains up to `cap` bytes and reports `io.EOF` on an
exhausted buffer; the empty `io.MultiReader` reports `io.EOF` at once. -/
def Reader.read : Reader → Nat → (Int × Option GoError) × Reader
  | .errorReader e, _ => ((-1, some e), .errorReader e)
  | .multiReaderEmpty, _ => ((0, some .eof), .multiReaderEmpty)
  | .buffer [], cap => ((0, if cap = 0 then none else some .eof), .buffer [])
  | .buffer (c :: s), cap =>
    let k := min cap (c :: s).length
    ((k, none), .buffer ((c :: s).drop k))

/-- Result of the `k`-th (0-based) `Read` call when every call passes a
buffer of size `cap`. -/
def Reader.readNth (r : Reader) (k cap : Nat) : Int × Option GoError :=
  match k with
  | 0 => (r.read cap).fst
  | k + 1 => Reader.readNth (r.read cap).snd k cap

/-- io.ReadAll against the readers of this unit: the buffer's bytes, or the
stored error of an `errorReader`, or no bytes from the empty reader. -/
def readAll : Reader → Except GoError (List Char)
  | .buffer s => .ok s
  | .errorReader e => .error e
  | .multiReaderEmpty => .ok []

/-- Function `encode(body interface{}) io.Reader` (internal.go 143-150):
`json.NewEncoder(&b).Encode(body)` marshals and appends `'\n'` into the
buffer; a marshal error is not returned but wrapped in an `errorReader`. -/
def encode (body : Body) : Reader :=
  match marshal body with
  | .error err => .errorReader err
  | .ok bs => .buffer (bs ++ ['\n'])

/-! ## Association wire types (internal.go lines 51-75) -/

/-- vim25/types.ManagedObjectReference: a type name and an identifier
(fields `Type` and `Value`; JSON tags `type` / `value` elsewhere). -/
structure ManagedObjectReference where
  type : String
  value : String
  deriving Repr, DecidableEq

/-- AssociatedObject is the same structure as types.ManagedObjectReference,
just with a different field name (ID instead of Value): JSON tags are
`type` and `id`. -/
structure AssociatedObject where
  type : String
  value : String
  deriving Repr, DecidableEq

/-- Method `Reference()`: the direct struct conversion
`types.ManagedObjectReference(o)`. -/
def AssociatedObject.Reference (o : AssociatedObject) : ManagedObjectReference :=
  ⟨o.type, o.value⟩

/-- Association for tag-association requests: field `ObjectID` with JSON tag
`object_id,omitempty`, a nil-able pointer. -/
structure Association where
  ObjectID : Option AssociatedObject
  deriving Repr, DecidableEq

/-- Function `NewAssociation(ref mo.Reference)`: converts the reference
(`mo.Reference` is the interface whose `Reference()` yields the managed
object reference, modelled by that reference value) to an
`AssociatedObject` via the struct conversion, and wraps it. -/
def NewAssociation (ref : ManagedObjectReference) : Association :=
  { ObjectID := some ⟨ref.type, ref.value⟩ }

/-- JSON image of an `AssociatedObject` under Go's derived struct
marshalling: fields in declaration order, names from the json tags. -/
def AssociatedObject.toJson (o : AssociatedObject) : Json :=
  .obj [("type".data, .str o.type.data), ("id".data, .str o.value.data)]

/-- JSON image of an `Association`: `omitempty` drops the `object_id` member
entirely when the pointer is nil. -/
def Association.toJson (a : Association) : Json :=
  .obj (match a.ObjectID with
        | some o => [("object_id".data, o.toJson)]
        | none => [])

/-! ## net/http embedding and Request (internal.go lines 120-132) -/

/-- Go `net/http` token characters (RFC 7230 tchar): alphanumerics and the
fifteen marks whose code points are listed. -/
def isTokenChar (c : Char) : Bool :=
  c.isAlphanum ||
    [33, 35, 36, 37, 38, 39, 42, 43, 45, 46, 94, 95, 96, 124, 126].contains c.toNat

/-- Go `net/http.validMethod`: nonempty and all token characters. -/
def validMethod (m : String) : Bool :=
  m.length > 0 && m.data.all isTokenChar

/-- Rendering of the URL handed to `http.NewRequest` (`r.u.String()`).
Percent-escaping of `URL.String` is elided: the string is carried as opaque
data and never re-parsed in this model. -/
def GoURL.render (u : GoURL) : String :=
  u.scheme ++ "://" ++ u.host ++ u.path ++
    (if u.rawQuery = "" then "" else "?" ++ u.rawQuery)

/-- The parts of Go's `http.Request` this unit constructs. -/
structure HttpRequest where
  method : String
  urlString : String
  body : Reader
  deriving Repr, DecidableEq

/-- Go `http.NewRequest(method, url, body)`: an empty method defaults to
GET; an invalid method yields an error.  URL re-parsing is modelled as
succeeding: the URL string rendered by `URL.String` from a structured URL
value always re-parses in Go. -/
def httpNewRequest (method urlStr : String) (body : Reader) : Except GoError HttpRequest :=
  let m := if method = "" then "GET" else method
  if validMethod m then .ok ⟨m, urlStr, body⟩ else .error (.invalidMethod m)

/-- Outcome of `Resource.Request`: a request, or a panic (the source calls
`panic(err)`; no error value is ever returned to the caller). -/
inductive RequestOutcome where
  | ok (req : HttpRequest)
  | fatal (e : GoError)
  deriving Repr, DecidableEq

/-- Method `Request(method string, body ...interface{}) *http.Request`:
empty body by default (`io.MultiReader()`), else `encode(body[0])`; panics
if `http.NewRequest` fails. -/
def Resource.Request (r : Resource) (method : String) (body : Option Body) : RequestOutcome :=
  let rdr := match body with
    | none => Reader.multiReaderEmpty
    | some b => encode b
  match httpNewRequest method r.u.render rdr with
  | .ok req => .ok req
  | .error e => .fatal e

/-- Method `String()` on Resource: `r.u.String()`. -/
def Resource.String (r : Resource) :=
  r.u.render

/-! ## JSON decoding (Go `json.Unmarshal` into a generic structure)

A standard JSON parser over bytes, used to state the encode-then-decode
round trip.  Recursion is fueled; `parseJson` supplies one unit of fuel per
input byte plus one, which the round-trip proof shows is enough.  Numbers
are restricted to integers, matching the `Json` model. -/

/-- JSON insignificant whitespace. -/
def isWs (c : Char) : Bool :=
  c = ' ' || c = '\t' || c = '\n' || c = '\r'

def skipWs : List Char → List Char
  | [] => []
  | c :: s => if isWs c then skipWs s else c :: s

/-- Value of a hex digit character, lower or upper case (code points
48-57 are the decimal digits, 97-102 and 65-70 the hex letters). -/
def hexVal (c : Char) : Option Nat :=
  let n := c.toNat
  if 47 < n ∧ n < 58 then some (n - 48)
  else if 96 < n ∧ n < 103 then some (n - 87)
  else if 64 < n ∧ n < 71 then some (n - 55)
  else none

/-- Greedy decimal accumulation: consume leading digits into `acc`. -/
def parseNatAcc : Nat → List Char → Nat × List Char
  | acc, [] => (acc, [])
  | acc, c :: s =>
    if c.isDigit then parseNatAcc (acc * 10 + (c.toNat - '0'.toNat)) s
    else (acc, c :: s)

/-- Parse one or more decimal digits. -/
def parseNat : List Char → Option (Nat × List Char)
  | [] => none
  | c :: s =>
    if c.isDigit then some (parseNatAcc (c.toNat - '0'.toNat) s) else none

/-- Parse four hex digits into a code point. -/
def parseHex4 : List Char → Option (Nat × List Char)
  | h1 :: h2 :: h3 :: h4 :: s =>
    match hexVal h1, hexVal h2, hexVal h3, hexVal h4 with
    | some v1, some v2, some v3, some v4 =>
      some (v1 * 4096 + v2 * 256 + v3 * 16 + v4, s)
    | _, _, _, _ => none
  | _ => none

/-- Single-character JSON escapes (everything except `\uXXXX`). -/
def unescapeChar (e : Char) : Option Char :=
  if e = '"' then some '"'
  else if e = '\\' then some '\\'
  else if e = '/' then some '/'
  else if e = 'n' then some '\n'
  else if e = 'r' then some '\r'
  else if e = 't' then some '\t'
  else if e = 'b' then some '\x08'
  else if e = 'f' then some '\x0c'
  else none

/-- Parse the body of a JSON string after the opening quote, unescaping. -/
def parseStrBody : Nat → List Char → Option (List Char × List Char)
  | 0, _ => none
  | _, [] => none
  | fuel + 1, c :: s =>
    if c = '"' then some ([], s)
    else if c = '\\' then
      match s with
      | [] => none
      | 'u' :: s2 =>
        match parseHex4 s2 with
        | some (v, s6) =>
          (parseStrBody fuel s6).map fun (r, rest) => (Char.ofNat v :: r, rest)
        | none => none
      | e :: s2 =>
        match unescapeChar e with
        | some ch => (parseStrBody fuel s2).map fun (r, rest) => (ch :: r, rest)
        | none => none
    else (parseStrBody fuel s).map fun (r, rest) => (c :: r, rest)

mutual

/-- Parse one JSON value. -/
def parseValue : Nat → List Char → Option (Json × List Char)
  | 0, _ => none
  | fuel + 1, s =>
    match skipWs s with
    | [] => none
    | c :: s1 =>
      if c = 'n' then
        match s1 with
        | 'u' :: 'l' :: 'l' :: r => some (.null, r)
        | _ => none
      else if c = 't' then
        match s1 with
        | 'r' :: 'u' :: 'e' :: r => some (.bool true, r)
        | _ => none
      else if c = 'f' then
        match s1 with
        | 'a' :: 'l' :: 's' :: 'e' :: r => some (.bool false, r)
        | _ => none
      else if c = '"' then
        (parseStrBody (fuel + 1) s1).map fun (cs, r) => (.str cs, r)
      else if c = '[' then
        match skipWs s1 with
        | ']' :: r => some (.arr [], r)
        | s2 => (parseItems fuel s2).map fun (xs, r) => (.arr xs, r)
      else if c = '{' then
        match skipWs s1 with
        | '}' :: r => some (.obj [], r)
        | s2 => (parseMembers fuel s2).map fun (kvs, r) => (.obj kvs, r)
      else if c = '-' then
        match parseNat s1 with
        | some (n, r) => some (.num (-(n : Int)), r)
        | none => none
      else if c.isDigit then
        match parseNat (c :: s1) with
        | some (n, r) => some (.num (n : Int), r)
        | none => none
      else none

/-- Parse the items of a non-empty array up to and including `]`. -/
def parseItems : Nat → List Char → Option (List Json × List Char)
  | 0, _ => none
  | fuel + 1, s =>
    match parseValue fuel s with
    | none => none
    | some (v, r) =>
      match skipWs r with
      | ',' :: r2 => (parseItems fuel r2).map fun (vs, rest) => (v :: vs, rest)
      | ']' :: r2 => some ([v], r2)
      | _ => none

/-- Parse the members of a non-empty object up to and including `}`. -/
def parseMembers : Nat → List Char → Option (List (List Char × Json) × List Char)
  | 0, _ => none
  | fuel + 1, s =>
    match skipWs s with
    | '"' :: s1 =>
      match parseStrBody (fuel + 1) s1 with
      | none => none
      | some (k, r) =>
        match skipWs r with
        | ':' :: r2 =>
          match parseValue fuel r2 with
          | none => none
          | some (v, r3) =>
            match skipWs r3 with
            | ',' :: r4 => (parseMembers fuel r4).map fun (kvs, rest) => ((k, v) :: kvs, rest)
            | '}' :: r4 => some ([(k, v)], r4)
            | _ => none
        | _ => none
    | _ => none

end

/-- Decode a byte stream into a generic JSON value: parse one value, then
require only whitespace to remain. -/
def parseJson (s : List Char) : Option Json :=
  match parseValue (s.length + 1) s with
  | some (v, rest) => if (skipWs rest).isEmpty then some v else none
  | none => none

/-- True when the input does not continue with a decimal digit, so greedy
number parsing stops exactly here. -/
def headNotDigit : List Char → Bool
  | [] => true
  | c :: _ => !c.isDigit

/-- Value of one digit position past the decimal rendering of `n`:
10 raised to the number of digits of `n`. -/
def pow10 (n : Nat) : Nat :=
  if _h : n < 10 then 10
  else 10 * pow10 (n / 10)
  termination_by n
  decreasing_by exact Nat.div_lt_self (by omega) (by omega)

/-! ## Round-trip lemmas for the JSON encoder and decoder -/

theorem charOfNat_toNat (c : Char) : Char.ofNat c.toNat = c := by
  unfold Char.ofNat
  have h : Nat.isValidChar c.toNat := c.valid
  rw [dif_pos h]
  apply Char.ext
  apply UInt32.ext
  simp [Char.ofNatAux, Char.toNat, UInt32.toNat]

theorem hexVal_lowerHexDigit (m : Nat) (h : m < 16) : hexVal (lowerHexDigit m) = some m := by
  interval_cases m <;> decide

theorem decDigit_isDigit (m : Nat) (h : m < 10) :
    (decDigit m).isDigit = true ∧ (decDigit m).toNat - 48 = m := by
  interval_cases m <;> exact ⟨by decide, by decide⟩

theorem parseNatAcc_stop (acc : Nat) (s : List Char) (h : headNotDigit s = true) :
    parseNatAcc acc s = (acc, s) := by
  cases s with
  | nil => rfl
  | cons c t =>
    simp only [headNotDigit, Bool.not_eq_eq_eq_not, Bool.not_true] at h
    simp [parseNatAcc, h]

theorem parseNatAcc_render (n : Nat) : ∀ acc rest,
    parseNatAcc acc (renderNat n ++ rest) = parseNatAcc (acc * pow10 n + n) rest := by
  induction n using Nat.strong_induction_on with
  | _ n ih =>
    intro acc rest
    obtain ⟨hd, hv⟩ := decDigit_isDigit (n % 10) (by omega)
    by_cases h : n < 10
    · unfold renderNat pow10
      rw [dif_pos h, dif_pos h]
      obtain ⟨hd0, hv0⟩ := decDigit_isDigit n h
      simp [parseNatAcc, hd0, hv0]
    · unfold renderNat pow10
      rw [dif_neg h, dif_neg h, List.append_assoc, List.singleton_append,
        ih (n / 10) (Nat.div_lt_self (by omega) (by omega)) acc (decDigit (n % 10) :: rest)]
      simp [parseNatAcc, hd, hv]
      congr 1
      rw [show acc * (10 * pow10 (n / 10)) = acc * pow10 (n / 10) * 10 from by ring]
      generalize acc * pow10 (n / 10) = q
      omega

theorem renderNat_cons (n : Nat) : ∃ c t, renderNat n = c :: t ∧ c.isDigit = true := by
  induction n using Nat.strong_induction_on with
  | _ n ih =>
    by_cases h : n < 10
    · exact ⟨decDigit n, [], by unfold renderNat; rw [dif_pos h], (decDigit_isDigit n h).1⟩
    · obtain ⟨c, t, hct, hc⟩ := ih (n / 10) (Nat.div_lt_self (by omega) (by omega))
      refine ⟨c, t ++ [decDigit (n % 10)], ?_, hc⟩
      unfold renderNat
      rw [dif_neg h, hct]
      rfl

theorem parseNat_render (n : Nat) (rest : List Char) (h : headNotDigit rest = true) :
    parseNat (renderNat n ++ rest) = some (n, rest) := by
  obtain ⟨c, t, hct, hc⟩ := renderNat_cons n
  have h2 := parseNatAcc_render n 0 rest
  rw [parseNatAcc_stop _ _ h] at h2
  rw [hct, List.cons_append] at h2 ⊢
  simp only [parseNatAcc, hc, if_pos] at h2
  simp only [parseNat, hc, if_pos]
  simp only [Nat.zero_mul, Nat.zero_add] at h2
  rw [h2]

theorem parseStrBody_plain (f : Nat) (L : List Char) (c : Char)
    (h1 : ¬c = '"') (h2 : ¬c = '\\') :
    parseStrBody (f + 1) (c :: L) =
      (parseStrBody f L).map fun p => (c :: p.1, p.2) := by
  simp only [parseStrBody, h1, h2, if_neg, if_false, ite_false]

theorem parseStrBody_stepU (f : Nat) (L : List Char) (d1 d2 d3 d4 : Char) (v : Nat)
    (hv : parseHex4 (d1 :: d2 :: d3 :: d4 :: L) = some (v, L)) :
    parseStrBody (f + 1) ('\\' :: 'u' :: d1 :: d2 :: d3 :: d4 :: L) =
      (parseStrBody f L).map fun p => (Char.ofNat v :: p.1, p.2) := by
  simp only [parseStrBody, hv]
  simp

theorem escapeString_cons (c : Char) (t : List Char) :
    escapeString (c :: t) = escapeChar c ++ escapeString t := by
  simp [escapeString]

theorem parseStrBody_escape (s : List Char) : ∀ fuel rest,
    (escapeString s).length + 1 ≤ fuel →
    parseStrBody fuel (escapeString s ++ '"' :: rest) = some (s, rest) := by
  induction s with
  | nil =>
    intro fuel rest hf
    cases fuel with
    | zero => omega
    | succ f => rfl
  | cons c t ih =>
    intro fuel rest hf
    have hlen : (escapeString (c :: t)).length =
        (escapeChar c).length + (escapeString t).length := by
      simp [escapeString_cons]
    rw [escapeString_cons, List.append_assoc]
    by_cases h1 : c = '"'
    · subst h1
      have hec : escapeChar '"' = ['\\', '"'] := by decide
      rw [hec] at hlen ⊢
      cases fuel with
      | zero => omega
      | succ f =>
        simp only [List.cons_append, List.nil_append]
        rw [show parseStrBody (f + 1)
            ('\\' :: '"' :: (escapeString t ++ '"' :: rest)) =
            (parseStrBody f (escapeString t ++ '"' :: rest)).map
              fun p => ('"' :: p.1, p.2) from rfl]
        rw [ih f rest (by simp at hlen; omega)]
        rfl
    · by_cases h2 : c = '\\'
      · subst h2
        have hec : escapeChar '\\' = ['\\', '\\'] := by decide
        rw [hec] at hlen ⊢
        cases fuel with
        | zero => omega
        | succ f =>
          simp only [List.cons_append, List.nil_append]
          rw [show parseStrBody (f + 1)
              ('\\' :: '\\' :: (escapeString t ++ '"' :: rest)) =
              (parseStrBody f (escapeString t ++ '"' :: rest)).map
                fun p => ('\\' :: p.1, p.2) from rfl]
          rw [ih f rest (by simp at hlen; omega)]
          rfl
      · by_cases h3 : c = '\n'
        · subst h3
          have hec : escapeChar '\n' = ['\\', 'n'] := by decide
          rw [hec] at hlen ⊢
          cases fuel with
          | zero => omega
          | succ f =>
            simp only [List.cons_append, List.nil_append]
            rw [show parseStrBody (f + 1)
                ('\\' :: 'n' :: (escapeString t ++ '"' :: rest)) =
                (parseStrBody f (escapeString t ++ '"' :: rest)).map
                  fun p => ('\n' :: p.1, p.2) from rfl]
            rw [ih f rest (by simp at hlen; omega)]
            rfl
        · by_cases h4 : c = '\r'
          · subst h4
            have hec : escapeChar '\r' = ['\\', 'r'] := by decide
            rw [hec] at hlen ⊢
            cases fuel with
            | zero => omega
            | succ f =>
              simp only [List.cons_append, List.nil_append]
              rw [show parseStrBody (f + 1)
                  ('\\' :: 'r' :: (escapeString t ++ '"' :: rest)) =
                  (parseStrBody f (escapeString t ++ '"' :: rest)).map
                    fun p => ('\r' :: p.1, p.2) from rfl]
              rw [ih f rest (by simp at hlen; omega)]
              rfl
          · by_cases h5 : c = '\t'
            · subst h5
              have hec : escapeChar '\t' = ['\\', 't'] := by decide
              rw [hec] at hlen ⊢
              cases fuel with
              | zero => omega
              | succ f =>
                simp only [List.cons_append, List.nil_append]
                rw [show parseStrBody (f + 1)
                    ('\\' :: 't' :: (escapeString t ++ '"' :: rest)) =
                    (parseStrBody f (escapeString t ++ '"' :: rest)).map
                      fun p => ('\t' :: p.1, p.2) from rfl]
                rw [ih f rest (by simp at hlen; omega)]
                rfl
            · by_cases h6 : c.toNat < 0x20 ∨ c = '<' ∨ c = '>' ∨ c = '&'
              · have hec : escapeChar c = ['\\', 'u', '0', '0',
                    lowerHexDigit (c.toNat / 16), lowerHexDigit (c.toNat % 16)] := by
                  unfold escapeChar
                  rw [if_neg h1, if_neg h2, if_neg h3, if_neg h4, if_neg h5, if_pos h6]
                have hb : c.toNat < 64 := by
                  rcases h6 with h | h | h | h
                  · omega
                  · rw [h]; decide
                  · rw [h]; decide
                  · rw [h]; decide
                rw [hec] at hlen ⊢
                cases fuel with
                | zero => omega
                | succ f =>
                  have hv : parseHex4 ('0' :: '0' :: lowerHexDigit (c.toNat / 16) ::
                      lowerHexDigit (c.toNat % 16) :: (escapeString t ++ '"' :: rest)) =
                      some (c.toNat, escapeString t ++ '"' :: rest) := by
                    simp only [parseHex4,
                      hexVal_lowerHexDigit (c.toNat / 16) (by omega),
                      hexVal_lowerHexDigit (c.toNat % 16) (by omega),
                      show hexVal '0' = some 0 from by decide]
                    congr 1
                    congr 1
                    omega
                  simp only [List.cons_append, List.nil_append]
                  rw [parseStrBody_stepU f _ _ _ _ _ _ hv]
                  rw [ih f rest (by simp at hlen; omega)]
                  simp [charOfNat_toNat]
              · by_cases h7 : c.toNat = 0x2028 ∨ c.toNat = 0x2029
                · have hec : escapeChar c = ['\\', 'u', '2', '0', '2',
                      lowerHexDigit (c.toNat % 16)] := by
                    unfold escapeChar
                    rw [if_neg h1, if_neg h2, if_neg h3, if_neg h4, if_neg h5,
                      if_neg h6, if_pos h7]
                  rw [hec] at hlen ⊢
                  cases fuel with
                  | zero => omega
                  | succ f =>
                    have hv : parseHex4 ('2' :: '0' :: '2' ::
                        lowerHexDigit (c.toNat % 16) :: (escapeString t ++ '"' :: rest)) =
                        some (c.toNat, escapeString t ++ '"' :: rest) := by
                      simp only [parseHex4,
                        hexVal_lowerHexDigit (c.toNat % 16) (by omega),
                        show hexVal '2' = some 2 from by decide,
                        show hexVal '0' = some 0 from by decide]
                      congr 1
                      congr 1
                      omega
                    simp only [List.cons_append, List.nil_append]
                    rw [parseStrBody_stepU f _ _ _ _ _ _ hv]
                    rw [ih f rest (by simp at hlen; omega)]
                    have hcc : Char.ofNat c.toNat = c := charOfNat_toNat c
                    simp [hcc]
                · have hec : escapeChar c = [c] := by
                    unfold escapeChar
                    rw [if_neg h1, if_neg h2, if_neg h3, if_neg h4, if_neg h5,
                      if_neg h6, if_neg h7]
                  rw [hec] at hlen ⊢
                  cases fuel with
                  | zero => omega
                  | succ f =>
                    rw [List.cons_append, List.nil_append]
                    rw [parseStrBody_plain f _ c h1 h2]
                    rw [ih f rest (by simp at hlen; omega)]
                    rfl

theorem skipWs_cons (c : Char) (s : List Char) (h : isWs c = false) :
    skipWs (c :: s) = c :: s := by
  simp [skipWs, h]

theorem isDigit_not_ws (c : Char) (h : c.isDigit = true) : isWs c = false := by
  by_contra hw
  simp only [Bool.not_eq_false] at hw
  simp only [isWs, Bool.or_eq_true, decide_eq_true_eq] at hw
  rcases hw with ((h1 | h1) | h1) | h1 <;> subst h1 <;> exact absurd h (by decide)

theorem isDigit_ne (c : Char) (h : c.isDigit = true) :
    ¬c = 'n' ∧ ¬c = 't' ∧ ¬c = 'f' ∧ ¬c = '"' ∧ ¬c = '[' ∧ ¬c = '{' ∧ ¬c = '-' ∧
      ¬c = ']' ∧ ¬c = '}' ∧ ¬c = ',' := by
  refine ⟨?_, ?_, ?_, ?_, ?_, ?_, ?_, ?_, ?_, ?_⟩ <;>
    exact fun he => by subst he; exact absurd h (by decide)

theorem render_length_pos (v : Json) : 1 ≤ (render v).length := by
  cases v with
  | null => decide
  | bool b => cases b <;> decide
  | num i =>
    obtain ⟨c, t, hct, _⟩ := renderNat_cons i.natAbs
    by_cases hi : i < 0 <;> simp [render, renderInt, hi, hct]
  | str s => simp [render]
  | arr xs => cases xs <;> simp [render]
  | obj kvs => cases kvs <;> simp [render]

theorem render_shape (v : Json) : ∃ c t, render v = c :: t ∧ isWs c = false ∧
    ¬c = ']' ∧ ¬c = '}' := by
  cases v with
  | num i =>
    obtain ⟨c, t, hct, hc⟩ := renderNat_cons i.natAbs
    by_cases hi : i < 0
    · exact ⟨'-', renderNat i.natAbs, by simp [render, renderInt, hi], by decide⟩
    · refine ⟨c, t, by simp [render, renderInt, hi, hct], isDigit_not_ws c hc, ?_, ?_⟩
      · exact (isDigit_ne c hc).2.2.2.2.2.2.2.1
      · exact (isDigit_ne c hc).2.2.2.2.2.2.2.2.1
  | bool b => cases b <;> exact ⟨_, _, rfl, by decide⟩
  | arr xs => cases xs <;> exact ⟨'[', _, rfl, by decide⟩
  | obj kvs => cases kvs <;> exact ⟨'{', _, rfl, by decide⟩
  | null => exact ⟨'n', _, rfl, by decide⟩
  | str s => exact ⟨'"', _, rfl, by decide⟩

theorem headNotDigit_items (xs : List Json) (rest : List Char) :
    headNotDigit (renderItems xs ++ ']' :: rest) = true := by
  cases xs with
  | nil => simp [renderItems, headNotDigit]
  | cons y ys => simp [renderItems, headNotDigit]

theorem headNotDigit_members (kvs : List (List Char × Json)) (rest : List Char) :
    headNotDigit (renderMembers kvs ++ '}' :: rest) = true := by
  cases kvs with
  | nil => simp [renderMembers, headNotDigit]
  | cons kv t => simp [renderMembers, renderMember, headNotDigit]



theorem parse_render_all (fuel : Nat) :
    (∀ v rest, (render v).length < fuel → headNotDigit rest = true →
      parseValue fuel (render v ++ rest) = some (v, rest)) ∧
    (∀ x xs rest,
      (render x).length + (renderItems xs).length + 1 < fuel →
      headNotDigit rest = true →
      parseItems fuel (render x ++ (renderItems xs ++ ']' :: rest)) =
        some (x :: xs, rest)) ∧
    (∀ k v kvs rest,
      (renderMember (k, v)).length + (renderMembers kvs).length + 1 < fuel →
      headNotDigit rest = true →
      parseMembers fuel (renderMember (k, v) ++ (renderMembers kvs ++ '}' :: rest)) =
        some ((k, v) :: kvs, rest)) := by
  induction fuel using Nat.strong_induction_on with
  | _ fuel ih =>
    refine ⟨?_, ?_, ?_⟩
    · intro v rest hlen hrest
      cases fuel with
      | zero => omega
      | succ F =>
        cases v with
        | null => rfl
        | bool b => cases b <;> rfl
        | num i =>
          by_cases hi : i < 0
          · rw [show render (.num i) = '-' :: renderNat i.natAbs from by
              simp [render, renderInt, hi]]
            rw [List.cons_append]
            rw [show parseValue (F + 1) ('-' :: (renderNat i.natAbs ++ rest)) =
              (match parseNat (renderNat i.natAbs ++ rest) with
               | some (n, r) => some (Json.num (-(n : Int)), r)
               | none => none) from rfl]
            rw [parseNat_render i.natAbs rest hrest]
            show some (Json.num (-((i.natAbs : Nat) : Int)), rest) =
              some (Json.num i, rest)
            have habs : -((i.natAbs : Nat) : Int) = i := by omega
            rw [habs]
          · obtain ⟨c, t, hct, hc⟩ := renderNat_cons i.natAbs
            obtain ⟨hn, ht, hf2, hq, hlb, hcb, hm, _, _, _⟩ := isDigit_ne c hc
            have hws := isDigit_not_ws c hc
            rw [show render (.num i) = renderNat i.natAbs from by
              simp [render, renderInt, hi]]
            rw [hct, List.cons_append]
            simp only [parseValue]
            rw [skipWs_cons c _ hws]
            simp only [if_neg hn, if_neg ht, if_neg hf2, if_neg hq, if_neg hlb,
              if_neg hcb, if_neg hm, hc, if_pos, ite_true]
            rw [← List.cons_append, ← hct, parseNat_render i.natAbs rest hrest]
            show some (Json.num ((i.natAbs : Nat) : Int), rest) =
              some (Json.num i, rest)
            have habs : ((i.natAbs : Nat) : Int) = i := by omega
            rw [habs]
        | str s =>
          have hl2 : (render (.str s)).length = (escapeString s).length + 2 := by
            simp [render]
          rw [show render (.str s) = '"' :: (escapeString s ++ ['"']) from by
            simp [render]]
          rw [List.cons_append, List.append_assoc, List.singleton_append]
          rw [show parseValue (F + 1) ('"' :: (escapeString s ++ '"' :: rest)) =
              (parseStrBody (F + 1) (escapeString s ++ '"' :: rest)).map
                (fun p => (Json.str p.1, p.2)) from rfl]
          rw [parseStrBody_escape s (F + 1) rest (by omega)]
          rfl
        | arr xs =>
          cases xs with
          | nil => rfl
          | cons x xs2 =>
            have hlp := render_length_pos x
            have harr : (render (.arr (x :: xs2))).length =
                (render x).length + (renderItems xs2).length + 2 := by
              simp [render]
              omega
            rw [show render (.arr (x :: xs2)) =
              '[' :: ((render x ++ renderItems xs2) ++ [']']) from by simp [render]]
            rw [List.cons_append, List.append_assoc, List.append_assoc,
              List.singleton_append]
            have hstep : ∀ L, parseValue (F + 1) ('[' :: L) =
                (match skipWs L with
                 | ']' :: r => some (Json.arr [], r)
                 | s2 => (parseItems F s2).map fun p => (Json.arr p.1, p.2)) :=
              fun L => rfl
            rw [hstep]
            obtain ⟨c, t, hct, hws, hrb, _⟩ := render_shape x
            rw [hct, List.cons_append, skipWs_cons c _ hws]
            split
            all_goals try (rename_i r heq; injection heq with h0 h1; exact absurd h0 hrb)
            rw [← List.cons_append, ← hct]
            rw [(ih F (by omega)).2.1 x xs2 rest (by omega) hrest]
            try rfl
        | obj kvs =>
          cases kvs with
          | nil => rfl
          | cons kv kvs2 =>
            obtain ⟨k, v⟩ := kv
            have hobj : (render (.obj ((k, v) :: kvs2))).length =
                (renderMember (k, v)).length + (renderMembers kvs2).length + 2 := by
              simp [render]
              omega
            rw [show render (.obj ((k, v) :: kvs2)) =
              '{' :: ((renderMember (k, v) ++ renderMembers kvs2) ++ ['}']) from by
                simp [render]]
            rw [List.cons_append, List.append_assoc, List.append_assoc,
              List.singleton_append]
            have hstep : ∀ L, parseValue (F + 1) ('{' :: L) =
                (match skipWs L with
                 | '}' :: r => some (Json.obj [], r)
                 | s2 => (parseMembers F s2).map fun p => (Json.obj p.1, p.2)) :=
              fun L => rfl
            rw [hstep]
            rw [show renderMember (k, v) =
              '"' :: (escapeString k ++ '"' :: ':' :: render v) from by
                simp [renderMember]]
            rw [List.cons_append, skipWs_cons '"' _ (by decide)]
            split
            all_goals try (rename_i r heq; injection heq with h0 h1; exact absurd h0 (by decide))
            have h2 := (ih F (by omega)).2.2 k v kvs2 rest (by omega) hrest
            simp only [renderMember, List.append_assoc, List.cons_append,
              List.nil_append] at h2 ⊢
            rw [h2]
            try rfl
    · intro x xs rest harith hrest
      cases fuel with
      | zero => omega
      | succ F =>
        have hlp := render_length_pos x
        simp only [parseItems]
        rw [(ih F (by omega)).1 x (renderItems xs ++ ']' :: rest) (by omega)
          (headNotDigit_items xs rest)]
        cases xs with
        | nil =>
          simp only [renderItems, List.nil_append]
          try rfl
        | cons y ys =>
          have hlpy := render_length_pos y
          have hil : (renderItems (y :: ys)).length =
              (render y).length + (renderItems ys).length + 1 := by
            simp [renderItems]
          rw [show renderItems (y :: ys) = ',' :: (render y ++ renderItems ys)
            from by simp [renderItems]]
          show (parseItems F ((render y ++ renderItems ys) ++ ']' :: rest)).map
            (fun p => (x :: p.1, p.2)) = some (x :: y :: ys, rest)
          rw [List.append_assoc]
          rw [(ih F (by omega)).2.1 y ys rest (by omega) hrest]
          try rfl
    · intro k v kvs rest harith hrest
      cases fuel with
      | zero => omega
      | succ F =>
        have hlp := render_length_pos v
        have hml : (renderMember (k, v)).length =
            (escapeString k).length + (render v).length + 3 := by
          simp [renderMember]
          omega
        have hsb : parseStrBody (F + 1)
            (escapeString k ++ '"' :: ':' :: (render v ++ (renderMembers kvs ++ '}' :: rest))) =
            some (k, ':' :: (render v ++ (renderMembers kvs ++ '}' :: rest))) :=
          parseStrBody_escape k (F + 1) _ (by omega)
        have hv := (ih F (by omega)).1 v (renderMembers kvs ++ '}' :: rest)
          (by omega) (headNotDigit_members kvs rest)
        have hrm : renderMember (k, v) ++ (renderMembers kvs ++ '}' :: rest) =
            '"' :: (escapeString k ++ '"' :: ':' ::
              (render v ++ (renderMembers kvs ++ '}' :: rest))) := by
          simp [renderMember]
        simp only [parseMembers]
        rw [hrm, skipWs_cons '"' _ (by decide)]
        show (match parseStrBody (F + 1) (escapeString k ++ '"' :: ':' ::
            (render v ++ (renderMembers kvs ++ '}' :: rest))) with
          | none => none
          | some (k2, r) =>
            match skipWs r with
            | ':' :: r2 =>
              match parseValue F r2 with
              | none => none
              | some (v2, r3) =>
                match skipWs r3 with
                | ',' :: r4 => (parseMembers F r4).map
                    fun p => ((k2, v2) :: p.1, p.2)
                | '}' :: r4 => some ([(k2, v2)], r4)
                | _ => none
            | _ => none) = some ((k, v) :: kvs, rest)
        rw [hsb]
        show (match parseValue F (render v ++ (renderMembers kvs ++ '}' :: rest)) with
          | none => none
          | some (v2, r3) =>
            match skipWs r3 with
            | ',' :: r4 => (parseMembers F r4).map
                fun p => ((k, v2) :: p.1, p.2)
            | '}' :: r4 => some ([(k, v2)], r4)
            | _ => none) = some ((k, v) :: kvs, rest)
        rw [hv]
        cases kvs with
        | nil =>
          simp only [renderMembers, List.nil_append]
          try rfl
        | cons kv2 kvs3 =>
          obtain ⟨k2, v2⟩ := kv2
          have hml2 : (renderMembers ((k2, v2) :: kvs3)).length =
              (renderMember (k2, v2)).length + (renderMembers kvs3).length + 1 := by
            simp [renderMembers]
          rw [show renderMembers ((k2, v2) :: kvs3) =
            ',' :: (renderMember (k2, v2) ++ renderMembers kvs3) from by
              simp [renderMembers]]
          show (parseMembers F ((renderMember (k2, v2) ++ renderMembers kvs3)
              ++ '}' :: rest)).map (fun p => ((k, v) :: p.1, p.2)) =
            some ((k, v) :: (k2, v2) :: kvs3, rest)
          rw [List.append_assoc]
          rw [(ih F (by omega)).2.2 k2 v2 kvs3 rest (by omega) hrest]
          try rfl

theorem parseJson_render (v : Json) :
    parseJson (render v ++ ['\n']) = some v := by
  unfold parseJson
  have h := (parse_render_all ((render v ++ ['\n']).length + 1)).1 v ['\n']
    (by simp; omega) (by decide)
  rw [h]
  rfl

/-! ## Claims about the URL builder -/

/-- C1, counterexample: the claim asserts the created Resource's URL has no
query string for every base URL, but `URL` only overwrites the path of the
cloned base URL, so a base URL carrying a query keeps it. -/
theorem claim_C1_counterexample :
    (URL ⟨"https", "host", "", "foo=bar"⟩ "/x").u.rawQuery ≠ "" ∧
    (URL ⟨"https", "host", "", "foo=bar"⟩ "/x").u.path = "/rest/x" := by
  exact ⟨by decide, rfl⟩

/-- C1 (amended): for every base URL and path string `p`, the Resource
returned by `URL` has URL path `"/rest" ++ p`, and its query string equals
the base URL's query string — in particular it is empty whenever the base
URL carries no query. -/
theorem claim_C1 (base : GoURL) (p : String) :
    (URL base p).u.path = "/rest" ++ p ∧
    (URL base p).u.rawQuery = base.rawQuery ∧
    (URL base p).u.scheme = base.scheme ∧
    (URL base p).u.host = base.host := by
  exact ⟨rfl, rfl, rfl, rfl⟩

/-- C3: `WithAction` and `WithParameter` each overwrite the whole query
string: after `WithAction a` followed by `WithParameter x y` the query is
exactly the encoding of the single pair `x=y` (no `~action` remnant,
concretely `"x=y"` for name `x` and value `y`), and symmetrically a
`WithAction` after a `WithParameter` leaves only `~action=...` — last
writer wins, with no accumulation, and the path is untouched. -/
theorem claim_C3 (r : Resource) (a x y : String) :
    ((r.WithAction a).WithParameter x y).u.rawQuery =
      queryEscapeStr x ++ "=" ++ queryEscapeStr y ∧
    ((r.WithAction "a").WithParameter "x" "y").u.rawQuery = "x=y" ∧
    ((r.WithParameter x y).WithAction a).u.rawQuery =
      "~action=" ++ queryEscapeStr a ∧
    ((r.WithAction a).WithParameter x y).u.path = r.u.path := by
  refine ⟨rfl, show valuesEncode1 "x" "y" = "x=y" from by decide, ?_, rfl⟩
  show valuesEncode1 "~action" a = _
  unfold valuesEncode1
  rw [show queryEscapeStr "~action" = "~action" from by decide,
    show ("~action" ++ "=" : String) = "~action=" from rfl]

/-- C4: `WithID i` appends exactly `"/id:" ++ i` to the current URL path,
leaves the query alone, two calls append two segments in call order, and
the spec's example chain produces the documented path and query. -/
theorem claim_C4 (r : Resource) (i j : String) :
    (r.WithID i).u.path = r.u.path ++ "/id:" ++ i ∧
    (r.WithID i).u.rawQuery = r.u.rawQuery ∧
    ((r.WithID i).WithID j).u.path = r.u.path ++ "/id:" ++ i ++ "/id:" ++ j ∧
    (((URL ⟨"https", "host", "", ""⟩ LibraryPath).WithID "lib-1").WithAction
        "sync").u.path = "/rest/com/vmware/content/library/id:lib-1" ∧
    (((URL ⟨"https", "host", "", ""⟩ LibraryPath).WithID "lib-1").WithAction
        "sync").u.rawQuery = "~action=sync" := by
  exact ⟨rfl, rfl, rfl, by decide, by decide⟩

/-- C10: `WithParameter` (and `WithAction` for its action value) sets the
query to the URL-query-encoded single pair, percent-escaping both name and
value (`queryEscape` keeps only unreserved bytes, maps space to `+`, and
percent-escapes the rest, e.g. `"a b&c"` becomes `"a+b%26c"`), whereas
`WithID` splices the id into the path verbatim with no escaping. -/
theorem claim_C10 (r : Resource) (name value a id : String) :
    (r.WithParameter name value).u.rawQuery =
      queryEscapeStr name ++ "=" ++ queryEscapeStr value ∧
    (r.WithAction a).u.rawQuery = "~action=" ++ queryEscapeStr a ∧
    (r.WithID id).u.path = r.u.path ++ "/id:" ++ id ∧
    queryEscapeStr "a b&c" = "a+b%26c" ∧
    (r.WithParameter "a b&c" "a b&c").u.rawQuery = "a+b%26c=a+b%26c" ∧
    (r.WithID "a b&c").u.path = r.u.path ++ "/id:a b&c" := by
  refine ⟨rfl, ?_, rfl, by decide,
    show valuesEncode1 "a b&c" "a b&c" = "a+b%26c=a+b%26c" from by decide, ?_⟩
  · show valuesEncode1 "~action" a = _
    unfold valuesEncode1
    rw [show queryEscapeStr "~action" = "~action" from by decide,
      show ("~action" ++ "=" : String) = "~action=" from rfl]
  · show r.u.path ++ "/id:" ++ "a b&c" = _
    rw [String.append_assoc, show ("/id:" ++ "a b&c" : String) = "/id:a b&c" from rfl]

/-! ## Claims about the association wire types -/

/-- C8: the conversions between `AssociatedObject` and the generic managed
object reference preserve the `Type`/`Value` fields in both directions and
are mutually inverse on them: `Reference()` keeps both fields, and
`NewAssociation` wraps an `AssociatedObject` carrying the same fields. -/
theorem claim_C8 (o : AssociatedObject) (ref : ManagedObjectReference) :
    o.Reference.type = o.type ∧
    o.Reference.value = o.value ∧
    (NewAssociation ref).ObjectID = some ⟨ref.type, ref.value⟩ ∧
    NewAssociation o.Reference = Association.mk (some o) ∧
    AssociatedObject.Reference ⟨ref.type, ref.value⟩ = ref := by
  exact ⟨rfl, rfl, rfl, rfl, rfl⟩

/-- C5: the marshalled bytes of an `AssociatedObject` name its fields
`type` and `id`; an `Association` with `ObjectID` set marshals to
`{"object_id": ...}`; with `ObjectID` absent the member is omitted entirely
(the output is `{}`, never a null member); and the spec's concrete example
produces exactly the documented bytes. -/
theorem claim_C5 (o : AssociatedObject) :
    render (Association.toJson ⟨none⟩) = "\x7b\x7d".data ∧
    render (Association.toJson ⟨some o⟩) =
      "\x7b\"object_id\":".data ++ render o.toJson ++ "\x7d".data ∧
    render o.toJson =
      "\x7b\"type\":".data ++ render (Json.str o.type.data) ++
        ",\"id\":".data ++ render (Json.str o.value.data) ++ "\x7d".data ∧
    render (Association.toJson (NewAssociation ⟨"Datacenter", "dc-1"⟩)) =
      "\x7b\"object_id\":\x7b\"type\":\"Datacenter\",\"id\":\"dc-1\"\x7d\x7d".data := by
  refine ⟨by decide, ?_, ?_, by decide⟩
  · simp only [Association.toJson, render, renderMember, renderMembers]
    simp [show escapeString "object_id".data = "object_id".data from by decide]
  · simp only [AssociatedObject.toJson, render, renderMember, renderMembers]
    simp [show escapeString "type".data = "type".data from by decide,
      show escapeString "id".data = "id".data from by decide]

/-! ## Claims about the deferred-error body encoder -/

/-- C2: when marshalling of the body fails, `encode` still returns a reader
(it is a total function with no error result): the reader is exactly
`errorReader` holding the stored marshal error, and the first `Read` call,
whatever buffer size it passes, returns that stored error (with count -1). -/
theorem claim_C2 (body : Body) (err : GoError) (cap : Nat)
    (h : marshal body = .error err) :
    encode body = Reader.errorReader err ∧
    ((encode body).read cap).fst = (-1, some err) := by
  unfold encode
  rw [h]
  exact ⟨rfl, rfl⟩

/-- Witness for C2 at a concrete unserializable body (a channel value). -/
theorem claim_C2_witness :
    marshal (Body.unsupportedType "chan int") =
      .error (.unsupportedType "chan int") ∧
    encode (Body.unsupportedType "chan int") =
      Reader.errorReader (.unsupportedType "chan int") ∧
    ((encode (Body.unsupportedType "chan int")).read 512).fst =
      (-1, some (.unsupportedType "chan int")) := by
  refine ⟨rfl, ?_⟩
  exact claim_C2 (Body.unsupportedType "chan int") (.unsupportedType "chan int") 512 rfl

/-- C9: after a failed marshal, every `Read` call on the returned reader —
not only the first — returns the same stored error with byte count -1
(`errorReader.Read` is stateless). -/
theorem claim_C9 (body : Body) (err : GoError) (k cap : Nat)
    (h : marshal body = .error err) :
    (encode body).readNth k cap = (-1, some err) := by
  have he : encode body = Reader.errorReader err := by unfold encode; rw [h]
  rw [he]
  induction k with
  | zero => rfl
  | succ k ih => exact ih

/-- Witness for C9: the third read on the reader for a cyclic value still
yields the stored error. -/
theorem claim_C9_witness :
    marshal (Body.unsupportedValue "encountered a cycle") =
      .error (.unsupportedValue "encountered a cycle") ∧
    (encode (Body.unsupportedValue "encountered a cycle")).readNth 2 4096 =
      (-1, some (.unsupportedValue "encountered a cycle")) := by
  exact ⟨rfl, claim_C9 (Body.unsupportedValue "encountered a cycle")
    (.unsupportedValue "encountered a cycle") 2 4096 rfl⟩

/-- C6: encode-then-decode round trip: for every marshallable payload,
reading the reader returned by `encode` yields bytes (no error), and
decoding those bytes as generic JSON recovers exactly the payload's JSON
representation. -/
theorem claim_C6 (v : Json) :
    ∃ bytes, readAll (encode (Body.val v)) = Except.ok bytes ∧
      parseJson bytes = some v :=
  ⟨render v ++ ['\n'], rfl, parseJson_render v⟩

/-! ## Claim about Request construction -/

/-- C7: with the body omitted `Request` produces a request whose body is the
empty reader (its first read reports 0 bytes and EOF); with a body supplied
the request body is exactly the encoder's reader; and when `http.NewRequest`
rejects the method the outcome is a panic (`fatal`), never an error value —
a branch no valid method reaches. -/
theorem claim_C7 (r : Resource) (method : String) (b : Body) (cap : Nat) :
    (validMethod method = true →
      r.Request method none =
        .ok ⟨method, r.u.render, Reader.multiReaderEmpty⟩ ∧
      (Reader.multiReaderEmpty.read cap).fst = (0, some .eof) ∧
      r.Request method (some b) = .ok ⟨method, r.u.render, encode b⟩) ∧
    (validMethod method = false → method ≠ "" →
      r.Request method none = .fatal (.invalidMethod method) ∧
      r.Request method (some b) = .fatal (.invalidMethod method)) := by
  constructor
  · intro hv
    have hne : method ≠ "" := by
      intro he
      rw [he] at hv
      exact absurd hv (by decide)
    refine ⟨?_, rfl, ?_⟩ <;>
      simp [Resource.Request, httpNewRequest, if_neg hne, hv]
  · intro hv hne
    constructor <;>
      simp [Resource.Request, httpNewRequest, if_neg hne, hv]

/-- Witness for C7: a valid method on a session resource gives a request
with the encoder's reader as body; a method with a space panics. -/
theorem claim_C7_witness :
    (URL ⟨"https", "host", "", ""⟩ SessionPath).Request "POST"
        (some (Body.val .null)) =
      .ok ⟨"POST", (URL ⟨"https", "host", "", ""⟩ SessionPath).u.render,
        encode (Body.val .null)⟩ ∧
    (URL ⟨"https", "host", "", ""⟩ SessionPath).Request "BAD METHOD" none =
      .fatal (.invalidMethod "BAD METHOD") := by
  constructor
  · exact ((claim_C7 (URL ⟨"https", "host", "", ""⟩ SessionPath) "POST"
      (Body.val .null) 0).1 (by decide)).2.2
  · exact ((claim_C7 (URL ⟨"https", "host", "", ""⟩ SessionPath) "BAD METHOD"
      (Body.val .null) 0).2 (by decide) (by decide)).1

end VapiInternal
